import Mathlib

/-!
Shallow embedding of the data-quality validation pipeline in
src/momo/data/validation.py, together with theorems settling the
behavioural claims about its four scanners, its report assembler and the
point-in-time constituent resolver.

Modelling conventions:
* A trading date is a natural number counting days since a fixed Monday
  epoch (Monday 2000-01-03 is day 0; every date-typed value below is such a
  day number), so a date d falls on a Monday exactly
  when d % 7 = 0 and on a weekday exactly when d % 7 < 5.  The pandas
  business-day calendar (freq B) used by the source is exactly the
  Monday-to-Friday weekday calendar, so this encoding captures it.
* Floating-point cell values are modelled as Option Rat: none models a
  NaN/missing cell, some q an ordinary value.  The pandas comparisons the
  source relies on (NaN < 0 is false, NaN == 0.0 is false, a NaN
  percentage change never exceeds a threshold) are mirrored by returning
  false on none.  Series.pct_change() is modelled with its default
  fill_method pad: the close column is forward-filled before each value
  is divided by its predecessor, so a change can be measured from the
  last valid close across intervening NaN closes.
* A pandas DataFrame indexed by the compound (date, symbol) MultiIndex is
  modelled as a list of per-symbol series; an input without that index
  structure (isinstance(df.index, pd.MultiIndex) is false) is modelled by
  the constructor PriceFrame.flat.
* Fallible Python code is modelled with Option / Except: validate_prices
  returns none where the source would raise (empty date level, where
  dates.max() is NaT and NaT.date() raises), and the constituent resolver
  returns Except so that a re-raised bridge exception is an error value.
-/

namespace MomoValidation

abbrev Symbol := String

/-- One row of the price DataFrame: the OHLC price columns, volume,
unadjusted close and the per-share dividend column, each cell possibly
NaN (none). -/
structure Row where
  open_ : Option ℚ
  high : Option ℚ
  low : Option ℚ
  close : Option ℚ
  volume : Option ℤ
  unadjusted_close : Option ℚ
  dividend : Option ℚ
deriving DecidableEq

/-- All rows of one ticker symbol, each keyed by its trading date
(the per-symbol slice df.loc[(slice(None), ticker), :]). -/
structure SymbolSeries where
  symbol : Symbol
  rows : List (ℕ × Row)
deriving DecidableEq

/-- The input DataFrame: either it carries the (date, symbol) MultiIndex
(multiIndexed, grouped by symbol) or it lacks the compound key structure
entirely (flat), the degenerate case every scanner guards against with
isinstance(df.index, pd.MultiIndex). -/
inductive PriceFrame where
  | flat
  | multiIndexed (series : List SymbolSeries)
deriving DecidableEq

/-! ## Missing-value scanner (validation.py, _check_missing_values) -/

/-- Number of NaN cells among the four critical OHLC columns of one row
(the per-column isna().sum() aggregation restricted to one row). -/
def rowNanCount (r : Row) : ℕ :=
  (if r.open_.isNone then 1 else 0) + (if r.high.isNone then 1 else 0) +
    (if r.low.isNone then 1 else 0) + (if r.close.isNone then 1 else 0)

/-- Total NaN count of one ticker across open, high, low and close. -/
def tickerNanCount (s : SymbolSeries) : ℕ :=
  (s.rows.map (fun dr => rowNanCount dr.2)).sum

/-- Per-ticker body of _check_missing_values: the ticker is reported with
its NaN count exactly when that count is positive. -/
def missingOne (s : SymbolSeries) : Option ℕ :=
  if tickerNanCount s > 0 then some (tickerNanCount s) else none

/-- _check_missing_values: per-symbol NaN counts over the OHLC columns,
keeping only symbols with at least one NaN; empty for a non-MultiIndex
input. -/
def _check_missing_values : PriceFrame → List (Symbol × ℕ)
  | .flat => []
  | .multiIndexed series =>
      series.filterMap (fun s => (missingOne s).map (fun n => (s.symbol, n)))

/-! ## Date-gap scanner (validation.py, _check_date_gaps) -/

/-- Monday-to-Friday weekday test, the pandas freq B calendar. -/
def isBusinessDay (d : ℕ) : Bool := d % 7 < 5

/-- Length of pd.bdate_range(start, end, freq B) for start less than or
equal to end: the number of weekdays in the inclusive range. -/
def bdateRangeLen (a b : ℕ) : ℕ :=
  ((List.range (b + 1 - a)).map (fun i => a + i)).countP isBusinessDay

/-- The gap size the source computes for an adjacent date pair:
len(bdate_range(start, end)) - 1, as an integer. -/
def gapSize (a b : ℕ) : ℤ := (bdateRangeLen a b : ℤ) - 1

/-- Following the spec's words (not the source): the number of business
days strictly between two dates, i.e. weekdays in the open interval. -/
def strictBusinessBetween (a b : ℕ) : ℕ :=
  ((List.range (b - a - 1)).map (fun i => a + 1 + i)).countP isBusinessDay

/-- The distinct observed dates of one ticker, ascending
(index.get_level_values(date).unique().sort_values()). -/
def sortedTickerDates (s : SymbolSeries) : List ℕ :=
  List.insertionSort (· ≤ ·) (s.rows.map (·.1)).dedup

/-- All adjacent pairs of a list, in order: the consecutive index pairs
(i, i+1) the source's for-loop ranges over. -/
def adjacentPairs {α : Type} : List α → List (α × α)
  | a :: b :: rest => (a, b) :: adjacentPairs (b :: rest)
  | _ => []

/-- Per-ticker body of _check_date_gaps: skip tickers with fewer than two
distinct dates, flag each adjacent pair whose gap size reaches the
threshold, and report the ticker only when at least one pair is flagged. -/
def gapsOne (threshold_days : ℤ) (s : SymbolSeries) : Option (List (ℕ × ℕ)) :=
  if (sortedTickerDates s).length < 2 then none
  else if ((adjacentPairs (sortedTickerDates s)).filter
      (fun p => decide (gapSize p.1 p.2 ≥ threshold_days))).isEmpty then none
  else some ((adjacentPairs (sortedTickerDates s)).filter
      (fun p => decide (gapSize p.1 p.2 ≥ threshold_days)))

/-- _check_date_gaps: per-symbol list of suspicious adjacent date pairs;
empty for a non-MultiIndex input.  The source default threshold is 10. -/
def _check_date_gaps (frame : PriceFrame) (threshold_days : ℤ) :
    List (Symbol × List (ℕ × ℕ)) :=
  match frame with
  | .flat => []
  | .multiIndexed series =>
      series.filterMap (fun s => (gapsOne threshold_days s).map (fun g => (s.symbol, g)))

/-- The source's default gap threshold (threshold_days: int = 10). -/
def defaultGapThreshold : ℤ := 10

/-! ## Adjustment-consistency scanner (validation.py, _check_adjustment_consistency) -/

/-- Whether the percentage change from one value of the forward-filled
close series to the next exceeds the threshold in absolute value, as the
source's pct_changes.abs() > threshold_pct evaluates one position of the
mask.  The change is (current - previous) / previous, equivalently
current / previous - 1, on the filled values; a NaN operand (a still-NaN
leading value, or the shifted-out first position) gives a NaN change and
the comparison is false.  A zero previous value gives a float infinity
(or NaN when the current value is also zero) in the source, so the
comparison is true exactly when the current value is nonzero. -/
def pctChangeExceeds (prev cur : Option ℚ) (threshold_pct : ℚ) : Bool :=
  match prev, cur with
  | some p, some c =>
      if p = 0 then decide (c ≠ 0)
      else decide (|(c - p) / p| > threshold_pct)
  | _, _ => false

/-- The ticker rows in chronological order (ticker_data.sort_index();
within one ticker the index orders by date). -/
def sortRowsByDate (rows : List (ℕ × Row)) : List (ℕ × Row) :=
  List.insertionSort (fun x y => x.1 ≤ y.1) rows

/-- Check 1 of the scanner: (ticker_data[close] < 0).any(); a NaN close
compares false. -/
def hasNegativeClose (rows : List (ℕ × Row)) : Bool :=
  rows.any (fun dr =>
    match dr.2.close with
    | some c => decide (c < 0)
    | none => false)

/-- The close column after the forward fill that Series.pct_change()
performs first (its default fill_method is pad): every NaN close takes
the most recent earlier non-NaN close, and leading NaN closes stay NaN.
The accumulator carries the last valid close seen so far. -/
def ffillAux (last : Option ℚ) : List (ℕ × Row) → List (Option ℚ)
  | [] => []
  | dr :: rest =>
      match dr.2.close with
      | some c => some c :: ffillAux (some c) rest
      | none => last :: ffillAux last rest

/-- fillna(method=pad) on the close column of the sorted rows. -/
def ffillCloses (rows : List (ℕ × Row)) : List (Option ℚ) :=
  ffillAux none rows

/-- Check 2 of the scanner: pct_change() pads the close column and then
divides each filled value by its predecessor, so some consecutive pair of
the forward-filled closes of the chronologically sorted rows must show an
absolute change above the threshold while the raw dividend of the later
row is exactly 0.0 (a NaN dividend compares false against 0.0).  The
rows are zipped with their filled closes to keep each dividend aligned
with its position; the first position has a NaN change (nothing to
divide by) and can never be the flagged later element. -/
def hasSuspiciousJump (threshold_pct : ℚ) (rows : List (ℕ × Row)) : Bool :=
  (adjacentPairs (rows.zip (ffillCloses rows))).any (fun pq =>
    pctChangeExceeds pq.1.2 pq.2.2 threshold_pct &&
      decide (pq.2.1.2.dividend = some 0))

/-- Per-ticker body of _check_adjustment_consistency: a negative price
flags the ticker and short-circuits (continue); otherwise the jump check
runs.  Either way the ticker is appended at most once. -/
def adjustmentOne (threshold_pct : ℚ) (s : SymbolSeries) : Bool :=
  hasNegativeClose (sortRowsByDate s.rows) ||
    hasSuspiciousJump threshold_pct (sortRowsByDate s.rows)

/-- _check_adjustment_consistency: the symbols flagged by either
heuristic; empty for a non-MultiIndex input.  The source default
threshold is 0.40. -/
def _check_adjustment_consistency (frame : PriceFrame) (threshold_pct : ℚ) : List Symbol :=
  match frame with
  | .flat => []
  | .multiIndexed series =>
      series.filterMap (fun s => if adjustmentOne threshold_pct s then some s.symbol else none)

/-- The source's default jump threshold (threshold_pct: float = 0.40). -/
def defaultPctThreshold : ℚ := 40 / 100

/-! ## Delisting detector (validation.py, check_delisting_status) -/

/-- Maximum of a list of naturals with 0 for the empty list; on the
nonempty lists it is applied to, it is ticker_dates.max(). -/
def natListMax (l : List ℕ) : ℕ := l.foldl max 0

/-- The last observed trading date of a ticker. -/
def lastTickerDate (s : SymbolSeries) : ℕ := natListMax (s.rows.map (·.1))

/-- Per-ticker body of check_delisting_status: tickers with no rows are
skipped; otherwise the ticker is delisted exactly when the calendar-day
difference query_end_date - last_date strictly exceeds the threshold. -/
def delistOne (query_end_date : ℕ) (threshold_days : ℤ) (s : SymbolSeries) : Option ℕ :=
  match s.rows with
  | [] => none
  | _ :: _ =>
      if (query_end_date : ℤ) - (lastTickerDate s : ℤ) > threshold_days then
        some (lastTickerDate s)
      else none

/-- check_delisting_status: maps each delisted symbol to its last observed
date; empty for a non-MultiIndex input.  The source default threshold is
30 calendar days; the query end date defaults at the call sites modelled
here to an explicitly supplied date (validate_prices always passes the
frame's maximum date). -/
def check_delisting_status (frame : PriceFrame) (query_end_date : ℕ)
    (threshold_days : ℤ) : List (Symbol × ℕ) :=
  match frame with
  | .flat => []
  | .multiIndexed series =>
      series.filterMap (fun s =>
        (delistOne query_end_date threshold_days s).map (fun d => (s.symbol, d)))

/-- The source's default delisting threshold (threshold_days: int = 30). -/
def defaultDelistThreshold : ℤ := 30

/-! ## Report assembler (validation.py, ValidationReport and validate_prices) -/

/-- The ValidationReport dataclass.  Mappings and the symbol set are kept
as association lists in scan order; their keys are unique because the
scanners iterate the unique symbol list. -/
structure ValidationReport where
  total_tickers : ℕ
  date_range : ℕ × ℕ
  missing_data_counts : List (Symbol × ℕ)
  date_gaps : List (Symbol × List (ℕ × ℕ))
  adjustment_issues : List Symbol
  delisting_events : List (Symbol × ℕ)
  summary_message : String
  is_valid : Bool
deriving DecidableEq

/-- date(2020, 1, 1), a Wednesday, in the day-number encoding (7303 days
after the Monday epoch 2000-01-03; 7303 % 7 = 2).  It is the fixed
placeholder used by the non-MultiIndex fallback branch of
validate_prices. -/
def date20200101 : ℕ := 7303

/-- All dates appearing in the frame's date index level, in frame order. -/
def allDates : List SymbolSeries → List ℕ
  | [] => []
  | s :: rest => s.rows.map (·.1) ++ allDates rest

/-- The issue clauses of the summary message, one per non-empty issue
category, in the fixed order missing, gaps, adjustment, delisting. -/
def summaryClauses (missing : List (Symbol × ℕ))
    (gaps : List (Symbol × List (ℕ × ℕ))) (adjustment : List Symbol)
    (delist : List (Symbol × ℕ)) : List String :=
  (if missing.isEmpty then [] else
    [Nat.repr missing.length ++ " ticker(s) with " ++
      Nat.repr (missing.map (·.2)).sum ++ " missing value(s)"]) ++
  (if gaps.isEmpty then [] else
    [Nat.repr gaps.length ++ " ticker(s) with " ++
      Nat.repr (gaps.map (fun g => g.2.length)).sum ++ " date gap(s)"]) ++
  (if adjustment.isEmpty then [] else
    [Nat.repr adjustment.length ++ " ticker(s) with adjustment issue(s)"]) ++
  (if delist.isEmpty then [] else [Nat.repr delist.length ++ " delisted"])

/-- The source's truncation of the composed issue summary: a message of
Python length over 200 is cut to its first 197 characters and given a
three-character ellipsis. -/
def truncateSummary (msg : String) : String :=
  if msg.length > 200 then String.mk (msg.data.take 197) ++ "..." else msg

/-- The summary-message construction of validate_prices: the issue
clauses joined by semicolons after a fixed prefix and truncated, or a
fixed no-issue sentence naming the ticker count when no category has
issues. -/
def buildSummary (total_tickers : ℕ) (missing : List (Symbol × ℕ))
    (gaps : List (Symbol × List (ℕ × ℕ))) (adjustment : List Symbol)
    (delist : List (Symbol × ℕ)) : String :=
  if (summaryClauses missing gaps adjustment delist).isEmpty then
    "Validation complete: " ++ Nat.repr total_tickers ++ " tickers, no issues detected"
  else
    truncateSummary ("Validation found issues: " ++
      String.intercalate "; " (summaryClauses missing gaps adjustment delist))

/-- Assembly of the ValidationReport record from the scanner outputs:
is_valid holds exactly when the first three containers are empty
(delistings are informational only), and the summary is built from the
same containers. -/
def assembleReport (total_tickers : ℕ) (range : ℕ × ℕ)
    (missing : List (Symbol × ℕ)) (gaps : List (Symbol × List (ℕ × ℕ)))
    (adjustment : List Symbol) (delist : List (Symbol × ℕ)) : ValidationReport :=
  { total_tickers := total_tickers
    date_range := range
    missing_data_counts := missing
    date_gaps := gaps
    adjustment_issues := adjustment
    delisting_events := delist
    summary_message := buildSummary total_tickers missing gaps adjustment delist
    is_valid := missing.isEmpty && gaps.isEmpty && adjustment.isEmpty }

/-- validate_prices.  A frame without the MultiIndex takes the fallback
branch: zero tickers, the fixed 2020-01-01 placeholder range, and every
scanner degrades to an empty result.  A MultiIndex frame whose date level
is empty makes the source call .date() on NaT, which raises; that raising
path is modelled as none.  Otherwise the four scanners run (delisting only
when check_delistings, with the frame's maximum date as horizon) and the
report is assembled. -/
def validate_prices (frame : PriceFrame) (check_delistings : Bool) :
    Option ValidationReport :=
  match frame with
  | .flat =>
      some (assembleReport 0 (date20200101, date20200101)
        (_check_missing_values .flat)
        (_check_date_gaps .flat defaultGapThreshold)
        (_check_adjustment_consistency .flat defaultPctThreshold)
        (if check_delistings then
          check_delisting_status .flat date20200101 defaultDelistThreshold
        else []))
  | .multiIndexed series =>
      match allDates series with
      | [] => none
      | d :: ds =>
          let start_date := ds.foldl Nat.min d
          let end_date := ds.foldl Nat.max d
          let total_tickers := (series.map (·.symbol)).dedup.length
          some (assembleReport total_tickers (start_date, end_date)
            (_check_missing_values (.multiIndexed series))
            (_check_date_gaps (.multiIndexed series) defaultGapThreshold)
            (_check_adjustment_consistency (.multiIndexed series) defaultPctThreshold)
            (if check_delistings then
              check_delisting_status (.multiIndexed series) end_date defaultDelistThreshold
            else []))

/-! ## Point-in-time constituent resolver
(validation.py, get_index_constituents_at_date) -/

/-- The two exception kinds the resolver's per-symbol try block
distinguishes: the builtin ValueError and NorgateBridgeError from
momo.utils.exceptions, each carrying its str(e) message. -/
inductive BridgeExc where
  | valueError (msg : String)
  | norgateBridgeError (msg : String)
deriving DecidableEq

/-- Whether the first character list starts the second one. -/
def leadsWith : List Char → List Char → Bool
  | [], _ => true
  | _ :: _, [] => false
  | a :: as, b :: bs => a == b && leadsWith as bs

/-- Whether the first character list occurs contiguously inside the
second one (the Python substring test, needle in haystack). -/
def containsSeq (needle : List Char) : List Char → Bool
  | [] => leadsWith needle []
  | c :: t => leadsWith needle (c :: t) || containsSeq needle t

/-- str(e).lower(), modelled per character. -/
def toLowerStr (s : String) : String := String.mk (s.data.map Char.toLower)

/-- The source's test "not found" in str(e).lower(). -/
def containsNotFound (msg : String) : Bool :=
  containsSeq "not found".data (toLowerStr msg).data

/-- The classification the source's except clauses implement: a ValueError
is always an invalid-symbol/invalid-index error, and a NorgateBridgeError
counts as one exactly when its lowercased message contains "not found";
every other NorgateBridgeError is a real bridge communication error. -/
def isInvalidReferenceError : BridgeExc → Bool
  | .valueError _ => true
  | .norgateBridgeError m => containsNotFound m

/-- The fetched constituent timeseries: rows of (date, index_constituent),
the flag being the raw numeric value the source passes through bool(). -/
abbrev ConstituentSeries := List (ℕ × ℤ)

/-- The membership decision of the resolver for one symbol: none when the
timeseries is empty (the symbol is skipped); otherwise the flag of the
exact entry for the target date when it exists, else of the last entry at
or before the target date, else of the series' first entry, converted by
bool() to a truthiness test against zero. -/
def selectMembership (ts : ConstituentSeries) (target_date : ℕ) : Option Bool :=
  match ts with
  | [] => none
  | first :: rest =>
      match (first :: rest).find? (fun p => decide (p.1 = target_date)) with
      | some e => some (decide (e.2 ≠ 0))
      | none =>
          match ((first :: rest).filter (fun p => decide (p.1 ≤ target_date))).getLast? with
          | some e => some (decide (e.2 ≠ 0))
          | none => some (decide (first.2 ≠ 0))

/-- The per-symbol loop of get_index_constituents_at_date over an explicit
candidate list.  The remote lookup (fetch_index_constituent_timeseries
with the fixed target_date plus/minus 5 day window) is a parameter; a
fetched empty series is skipped, a truthy membership appends the symbol,
an invalid-symbol/invalid-index exception is caught and the loop continues,
and any other NorgateBridgeError is re-raised unchanged.  (When the caller
passes no symbol list the source first obtains one from the watchlist; the
loop itself is unchanged.) -/
def get_index_constituents_at_date
    (fetch : Symbol → Except BridgeExc ConstituentSeries) (target_date : ℕ) :
    List Symbol → Except BridgeExc (List Symbol)
  | [] => .ok []
  | sym :: rest =>
      match fetch sym with
      | .ok ts =>
          match selectMembership ts target_date with
          | none => get_index_constituents_at_date fetch target_date rest
          | some b =>
              if b then
                (get_index_constituents_at_date fetch target_date rest).map
                  (fun l => sym :: l)
              else get_index_constituents_at_date fetch target_date rest
      | .error e =>
          if isInvalidReferenceError e then
            get_index_constituents_at_date fetch target_date rest
          else .error e

/-! ## Helper lemmas about the scanner combinator shapes -/

/-- Lookup in the association lists the scanners produce (the Python dict
access result.get(ticker)). -/
def lookupD {β : Type} (l : List (Symbol × β)) (sym : Symbol) : Option β :=
  (l.find? (fun p => decide (p.1 = sym))).map (·.2)

lemma find?_scan_eq_none {β : Type} (series : List SymbolSeries)
    (g : SymbolSeries → Option β) (sym : Symbol)
    (hsym : sym ∉ series.map (·.symbol)) :
    (series.filterMap (fun t => (g t).map (fun v => (t.symbol, v)))).find?
      (fun p => decide (p.1 = sym)) = none := by
  induction series with
  | nil => rfl
  | cons t rest ih =>
      simp only [List.map_cons, List.mem_cons, not_or] at hsym
      cases hgt : g t with
      | none => simpa [List.filterMap_cons, hgt] using ih hsym.2
      | some v =>
          have hne : ¬(t.symbol = sym) := fun h => hsym.1 h.symm
          simpa [List.filterMap_cons, hgt, List.find?_cons, hne] using ih hsym.2

lemma lookupD_scan {β : Type} (series : List SymbolSeries)
    (g : SymbolSeries → Option β)
    (hnd : (series.map (·.symbol)).Nodup) {s : SymbolSeries} (hs : s ∈ series) :
    lookupD (series.filterMap (fun t => (g t).map (fun v => (t.symbol, v)))) s.symbol
      = g s := by
  induction series with
  | nil => cases hs
  | cons t rest ih =>
      simp only [List.map_cons, List.nodup_cons] at hnd
      rcases List.mem_cons.mp hs with rfl | hmem
      · cases hgt : g s with
        | none =>
            have := find?_scan_eq_none rest g s.symbol hnd.1
            simp [lookupD, List.filterMap_cons, hgt, this]
        | some v => simp [lookupD, List.filterMap_cons, hgt, List.find?_cons]
      · have hne : ¬(t.symbol = s.symbol) := by
          intro h
          exact hnd.1 (h ▸ List.mem_map_of_mem (·.symbol) hmem)
        cases hgt : g t with
        | none => simpa [lookupD, List.filterMap_cons, hgt] using ih hnd.2 hmem
        | some v =>
            simpa [lookupD, List.filterMap_cons, hgt, List.find?_cons, hne] using
              ih hnd.2 hmem

lemma mem_keys_scan {β : Type} (series : List SymbolSeries)
    (g : SymbolSeries → Option β) (sym : Symbol)
    (h : sym ∈ (series.filterMap
      (fun t => (g t).map (fun v => (t.symbol, v)))).map (·.1)) :
    sym ∈ series.map (·.symbol) := by
  rcases List.mem_map.mp h with ⟨p, hp, hps⟩
  rcases List.mem_filterMap.mp hp with ⟨t, ht, hgt⟩
  cases hg : g t with
  | none => rw [hg] at hgt; cases hgt
  | some v =>
      rw [hg] at hgt
      injection hgt with hgt2
      subst hgt2
      exact hps ▸ List.mem_map_of_mem (·.symbol) ht

lemma adjacentPairs_eq_nil {α : Type} (l : List α) (h : l.length < 2) :
    adjacentPairs l = [] := by
  match l with
  | [] => rfl
  | [a] => rfl
  | a :: b :: rest => simp at h; omega

lemma mem_adjacentPairs {α : Type} (l : List α) (x y : α) :
    (x, y) ∈ adjacentPairs l ↔ ∃ i, l[i]? = some x ∧ l[i + 1]? = some y := by
  induction l with
  | nil =>
      simp only [adjacentPairs, List.not_mem_nil, false_iff, not_exists]
      intro i h
      exact Option.noConfusion h.1
  | cons a t ih =>
      match t, ih with
      | [], _ =>
          simp only [adjacentPairs, List.not_mem_nil, false_iff, not_exists]
          intro i h
          rcases h with ⟨-, h2⟩
          rw [List.getElem?_cons_succ] at h2
          exact Option.noConfusion h2
      | b :: rest, ih =>
          constructor
          · intro hmem
            rcases List.mem_cons.mp hmem with heq | htail
            · injection heq with hx hy
              subst hx; subst hy
              exact ⟨0, by simp, by simp⟩
            · rcases (ih).mp htail with ⟨i, h1, h2⟩
              exact ⟨i + 1, by simpa using h1, by simpa using h2⟩
          · rintro ⟨i, h1, h2⟩
            cases i with
            | zero =>
                simp only [List.getElem?_cons_zero, Option.some.injEq] at h1
                rw [List.getElem?_cons_succ, List.getElem?_cons_zero] at h2
                simp only [Option.some.injEq] at h2
                subst h1; subst h2
                exact List.mem_cons_self _ _
            | succ j =>
                rw [List.getElem?_cons_succ] at h1
                rw [List.getElem?_cons_succ] at h2
                exact List.mem_cons_of_mem _ ((ih).mpr ⟨j, h1, h2⟩)

lemma snd_mem_of_mem_adjacentPairs {α : Type} {l : List α} {x y : α}
    (h : (x, y) ∈ adjacentPairs l) : y ∈ l := by
  rcases (mem_adjacentPairs l x y).mp h with ⟨i, -, h2⟩
  exact List.getElem?_mem h2

/-! ## Claim C1: the date-gap scanner's flagging condition -/

lemma gapsOne_getD (threshold_days : ℤ) (s : SymbolSeries) :
    (gapsOne threshold_days s).getD [] =
      (adjacentPairs (sortedTickerDates s)).filter
        (fun p => decide (gapSize p.1 p.2 ≥ threshold_days)) := by
  unfold gapsOne
  by_cases h2 : (sortedTickerDates s).length < 2
  · rw [if_pos h2, adjacentPairs_eq_nil _ h2]
    rfl
  · rw [if_neg h2]
    by_cases hemp : ((adjacentPairs (sortedTickerDates s)).filter
        (fun p => decide (gapSize p.1 p.2 ≥ threshold_days))).isEmpty
    · rw [if_pos hemp]
      rw [List.isEmpty_iff] at hemp
      rw [hemp]
      rfl
    · rw [if_neg hemp]
      rfl

lemma bdateRangeLen_split (a b : ℕ) (hab : a < b) :
    bdateRangeLen a b =
      (if isBusinessDay a then 1 else 0) + strictBusinessBetween a b +
        (if isBusinessDay b then 1 else 0) := by
  have hm : b + 1 - a = (b - a - 1) + 1 + 1 := by omega
  have hb : a + (b - a - 1 + 1) = b := by omega
  have hfun : (fun i => a + Nat.succ i) = (fun i => a + 1 + i) := by
    funext i
    omega
  unfold bdateRangeLen strictBusinessBetween
  rw [hm, List.range_succ, List.range_succ_eq_map]
  rw [List.map_append, List.map_cons, List.map_map]
  rw [List.countP_append, List.countP_cons]
  simp only [Function.comp_def, List.map_cons, List.map_nil, List.countP_cons,
    List.countP_nil, Nat.add_zero]
  rw [hfun, hb]
  split_ifs <;> omega

lemma isBusinessDay_of_mod (d : ℕ) (r : ℕ) (hd : d % 7 = r) :
    isBusinessDay d = decide (r < 5) := by
  unfold isBusinessDay
  rw [hd]

/-- C1 (amended).  For every symbol of the frame and every adjacent pair
(a, b) of its ascending-sorted distinct dates, the pair is recorded as a
gap if and only if the source's gap size, the inclusive business-day count
of [a, b] minus 1, is at least threshold_days.  When both endpoints are
business days this is equivalent to: the number of business days strictly
between a and b is at least threshold_days - 1 (one LESS than the
threshold the claim states).  A Friday-to-Monday pair is still never
recorded at the default threshold 10. -/
theorem dateGaps_gap_characterization (threshold_days : ℤ)
    (series : List SymbolSeries) (hnd : (series.map (·.symbol)).Nodup)
    (s : SymbolSeries) (hs : s ∈ series) (a b : ℕ) :
    (((a, b) ∈ (lookupD (_check_date_gaps (.multiIndexed series) threshold_days)
          s.symbol).getD [])
        ↔ ((a, b) ∈ adjacentPairs (sortedTickerDates s) ∧
            gapSize a b ≥ threshold_days))
    ∧ (isBusinessDay a = true → isBusinessDay b = true → a < b →
        (((a, b) ∈ (lookupD (_check_date_gaps (.multiIndexed series) threshold_days)
            s.symbol).getD [])
          ↔ ((a, b) ∈ adjacentPairs (sortedTickerDates s) ∧
              (strictBusinessBetween a b : ℤ) ≥ threshold_days - 1)))
    ∧ (threshold_days = 10 → a % 7 = 4 → b = a + 3 →
        (a, b) ∉ (lookupD (_check_date_gaps (.multiIndexed series) threshold_days)
          s.symbol).getD []) := by
  have hlook : lookupD (_check_date_gaps (.multiIndexed series) threshold_days) s.symbol
      = gapsOne threshold_days s :=
    lookupD_scan series (gapsOne threshold_days) hnd hs
  have hmain : ((a, b) ∈ (lookupD (_check_date_gaps (.multiIndexed series) threshold_days)
      s.symbol).getD [])
      ↔ ((a, b) ∈ adjacentPairs (sortedTickerDates s) ∧ gapSize a b ≥ threshold_days) := by
    rw [hlook, gapsOne_getD]
    rw [List.mem_filter]
    simp only [decide_eq_true_iff]
  refine ⟨hmain, ?_, ?_⟩
  · intro ha hb hab
    rw [hmain]
    have hsplit := bdateRangeLen_split a b hab
    rw [ha, hb] at hsplit
    simp only [if_true] at hsplit
    unfold gapSize
    rw [hsplit]
    constructor
    · rintro ⟨h1, h2⟩
      refine ⟨h1, ?_⟩
      push_cast at h2 ⊢
      omega
    · rintro ⟨h1, h2⟩
      refine ⟨h1, ?_⟩
      push_cast at h2 ⊢
      omega
  · rintro rfl hmod rfl
    rw [hmain]
    rintro ⟨-, hge⟩
    have hlen : bdateRangeLen a (a + 3) = 2 := by
      unfold bdateRangeLen
      have h4 : a + 3 + 1 - a = 4 := by omega
      rw [h4]
      have hr : List.range 4 = [0, 1, 2, 3] := rfl
      rw [hr]
      simp only [List.map_cons, List.map_nil, List.countP_cons, List.countP_nil]
      have e0 : isBusinessDay (a + 0) = true := by
        rw [isBusinessDay_of_mod (a + 0) 4 (by omega)]; rfl
      have e1 : isBusinessDay (a + 1) = false := by
        rw [isBusinessDay_of_mod (a + 1) 5 (by omega)]; rfl
      have e2 : isBusinessDay (a + 2) = false := by
        rw [isBusinessDay_of_mod (a + 2) 6 (by omega)]; rfl
      have e3 : isBusinessDay (a + 3) = true := by
        rw [isBusinessDay_of_mod (a + 3) 0 (by omega)]; rfl
      rw [e0, e1, e2, e3]
      rfl
    unfold gapSize at hge
    rw [hlen] at hge
    omega

/-- A demonstration row with no missing cells, used by concrete frames. -/
def gapDemoRow : Row :=
  { open_ := some 1, high := some 1, low := some 1, close := some 1,
    volume := some 1, unadjusted_close := some 1, dividend := some 0 }

/-- The C1 demonstration frame: one symbol observed on day 0 (a Monday)
and day 14 (the Monday two weeks later). -/
def gapDemoSeries : List SymbolSeries :=
  [{ symbol := "A", rows := [(0, gapDemoRow), (14, gapDemoRow)] }]

/-- C1 (counterexample).  With the default threshold 10, the pair of
Mondays (0, 14) has exactly 9 = threshold - 1 business days strictly
between, yet the scanner records it as a gap, refuting the claimed
strictly-between reading of the threshold comparison. -/
theorem dateGaps_strict_between_refuted :
    _check_date_gaps (.multiIndexed gapDemoSeries) 10 = [("A", [(0, 14)])]
      ∧ strictBusinessBetween 0 14 = 9 ∧ ¬(9 ≥ 10) := by
  refine ⟨by decide, by decide, by omega⟩

/-- C1 (witness).  The amended characterization instantiated on the
demonstration frame: the recorded pair (0, 14) satisfies the source's
gap-size condition. -/
theorem dateGaps_gap_characterization_witness :
    ((0, 14) ∈ (lookupD (_check_date_gaps (.multiIndexed gapDemoSeries) 10)
        "A").getD [])
      ↔ (((0 : ℕ), (14 : ℕ)) ∈
          adjacentPairs (sortedTickerDates { symbol := "A", rows := [(0, gapDemoRow), (14, gapDemoRow)] })
          ∧ gapSize 0 14 ≥ 10) :=
  (dateGaps_gap_characterization 10 gapDemoSeries (by simp [gapDemoSeries])
    { symbol := "A", rows := [(0, gapDemoRow), (14, gapDemoRow)] }
    (List.mem_cons_self _ _) 0 14).1

/-! ## Claims C2 and C10: the adjustment-consistency scanner -/

lemma mem_adjustment_subset (threshold_pct : ℚ) (series : List SymbolSeries)
    (sym : Symbol)
    (h : sym ∈ series.filterMap
      (fun t => if adjustmentOne threshold_pct t then some t.symbol else none)) :
    sym ∈ series.map (·.symbol) := by
  rcases List.mem_filterMap.mp h with ⟨t, ht, hgt⟩
  by_cases hflag : adjustmentOne threshold_pct t
  · rw [if_pos hflag] at hgt
    injection hgt with hgt2
    exact hgt2 ▸ List.mem_map_of_mem (·.symbol) ht
  · rw [if_neg hflag] at hgt
    cases hgt

lemma mem_adjustment_scan (threshold_pct : ℚ) (series : List SymbolSeries)
    (hnd : (series.map (·.symbol)).Nodup) {s : SymbolSeries} (hs : s ∈ series) :
    (s.symbol ∈ _check_adjustment_consistency (.multiIndexed series) threshold_pct)
      ↔ adjustmentOne threshold_pct s = true := by
  induction series with
  | nil => cases hs
  | cons t rest ih =>
      simp only [List.map_cons, List.nodup_cons] at hnd
      have hres : _check_adjustment_consistency (.multiIndexed (t :: rest)) threshold_pct
          = (if adjustmentOne threshold_pct t then some t.symbol else none).toList ++
            _check_adjustment_consistency (.multiIndexed rest) threshold_pct := by
        simp [_check_adjustment_consistency, List.filterMap_cons]
        by_cases hflag : adjustmentOne threshold_pct t <;> simp [hflag]
      rcases List.mem_cons.mp hs with rfl | hmem
      · rw [hres]
        by_cases hflag : adjustmentOne threshold_pct s
        · simp [hflag]
        · simp only [hflag, Bool.false_eq_true, iff_false, if_neg, Option.toList_none,
            List.nil_append]
          intro hbad
          exact hnd.1 (mem_adjustment_subset threshold_pct rest s.symbol hbad)
      · have hne : t.symbol ≠ s.symbol := by
          intro h
          exact hnd.1 (h ▸ List.mem_map_of_mem (·.symbol) hmem)
        rw [hres]
        rw [List.mem_append]
        rw [← ih hnd.2 hmem]
        constructor
        · rintro (hin | hin)
          · exfalso
            by_cases hflag : adjustmentOne threshold_pct t <;> simp [hflag] at hin
            exact hne hin.symm
          · exact hin
        · intro hin
          exact Or.inr hin

lemma sortRowsByDate_perm (rows : List (ℕ × Row)) :
    List.Perm (sortRowsByDate rows) rows := by
  unfold sortRowsByDate
  exact List.perm_insertionSort _ _

lemma hasNegativeClose_iff (rows : List (ℕ × Row)) :
    hasNegativeClose rows = true ↔
      ∃ dr ∈ rows, ∃ c, dr.2.close = some c ∧ c < 0 := by
  unfold hasNegativeClose
  rw [List.any_eq_true]
  constructor
  · rintro ⟨dr, hdr, hp⟩
    cases hc : dr.2.close with
    | none => rw [hc] at hp; cases hp
    | some c =>
        rw [hc] at hp
        exact ⟨dr, hdr, c, hc, of_decide_eq_true hp⟩
  · rintro ⟨dr, hdr, c, hc, hlt⟩
    refine ⟨dr, hdr, ?_⟩
    rw [hc]
    exact decide_eq_true hlt

lemma hasSuspiciousJump_iff (threshold_pct : ℚ) (rows : List (ℕ × Row)) :
    hasSuspiciousJump threshold_pct rows = true ↔
      ∃ i x y, (rows.zip (ffillCloses rows))[i]? = some x ∧
        (rows.zip (ffillCloses rows))[i + 1]? = some y ∧
        pctChangeExceeds x.2 y.2 threshold_pct = true ∧
        y.1.2.dividend = some 0 := by
  unfold hasSuspiciousJump
  rw [List.any_eq_true]
  constructor
  · rintro ⟨⟨x, y⟩, hmem, hp⟩
    rw [Bool.and_eq_true] at hp
    rcases (mem_adjacentPairs _ x y).mp hmem with ⟨i, h1, h2⟩
    exact ⟨i, x, y, h1, h2, hp.1, of_decide_eq_true hp.2⟩
  · rintro ⟨i, x, y, h1, h2, hpct, hdiv⟩
    refine ⟨(x, y), (mem_adjacentPairs _ x y).mpr ⟨i, h1, h2⟩, ?_⟩
    rw [Bool.and_eq_true]
    exact ⟨hpct, decide_eq_true hdiv⟩

/-- C2 (amended).  A symbol is flagged by the adjustment-consistency
scanner exactly when some close of its series is negative, or some
position after the first of its chronologically sorted series shows an
absolute percentage change above the threshold on the forward-filled
close series (pct_change with its default fill_method pad measures each
change against the most recent valid close) while the raw dividend on
that position's date is exactly zero.  The first sorted position can
never be the flagging one, and a jump whose dividend cell is nonzero (or
missing) never flags. -/
theorem adjustment_flag_characterization (threshold_pct : ℚ)
    (series : List SymbolSeries) (hnd : (series.map (·.symbol)).Nodup)
    (s : SymbolSeries) (hs : s ∈ series) :
    (s.symbol ∈ _check_adjustment_consistency (.multiIndexed series) threshold_pct)
      ↔ ((∃ dr ∈ s.rows, ∃ c, dr.2.close = some c ∧ c < 0) ∨
          (∃ i x y,
            ((sortRowsByDate s.rows).zip
              (ffillCloses (sortRowsByDate s.rows)))[i]? = some x ∧
            ((sortRowsByDate s.rows).zip
              (ffillCloses (sortRowsByDate s.rows)))[i + 1]? = some y ∧
            pctChangeExceeds x.2 y.2 threshold_pct = true ∧
            y.1.2.dividend = some 0)) := by
  rw [mem_adjustment_scan threshold_pct series hnd hs]
  unfold adjustmentOne
  rw [Bool.or_eq_true, hasNegativeClose_iff, hasSuspiciousJump_iff]
  have hsub1 : sortRowsByDate s.rows ⊆ s.rows :=
    (sortRowsByDate_perm s.rows).subset
  have hsub2 : s.rows ⊆ sortRowsByDate s.rows :=
    (sortRowsByDate_perm s.rows).symm.subset
  apply or_congr _ Iff.rfl
  constructor
  · rintro ⟨dr, hdr, hc⟩
    exact ⟨dr, hsub1 hdr, hc⟩
  · rintro ⟨dr, hdr, hc⟩
    exact ⟨dr, hsub2 hdr, hc⟩

/-- Following the claim's words (not the source): the jump criterion read
with the literal formula (close of row t minus close of row t-1) divided
by (close of row t-1) over adjacent raw rows of the sorted series, a NaN
close leaving the change undefined and thus never above the threshold. -/
def claimLiteralJump (threshold_pct : ℚ) (rows : List (ℕ × Row)) : Bool :=
  (adjacentPairs rows).any (fun pq =>
    pctChangeExceeds pq.1.2.close pq.2.2.close threshold_pct &&
      decide (pq.2.2.dividend = some 0))

/-- Rows for the C2 counterexample: closes 100, NaN, 160 with a zero
dividend recorded on every date. -/
def padRowA : Row :=
  { open_ := some 100, high := some 100, low := some 100, close := some 100,
    volume := some 1, unadjusted_close := some 100, dividend := some 0 }

def padRowNaN : Row :=
  { open_ := some 1, high := some 1, low := some 1, close := none,
    volume := some 1, unadjusted_close := some 1, dividend := some 0 }

def padRowC : Row :=
  { open_ := some 160, high := some 160, low := some 160, close := some 160,
    volume := some 1, unadjusted_close := some 160, dividend := some 0 }

def padDemoSeries : List SymbolSeries :=
  [{ symbol := "P", rows := [(0, padRowA), (1, padRowNaN), (2, padRowC)] }]

/-- C2 (counterexample).  On closes [100, NaN, 160] with zero dividends,
the scanner flags the symbol: pct_change pads the NaN close, so day 2 is
measured against the last valid close 100, a 60 percent jump.  No close
is negative, and no adjacent raw pair satisfies the claim's literal
(close of row t minus close of row t-1) / (close of row t-1) criterion,
since each pair touching the NaN close has an undefined change.  The
claimed if-and-only-if therefore fails on the code. -/
theorem adjustment_literal_formula_refuted :
    "P" ∈ _check_adjustment_consistency (.multiIndexed padDemoSeries)
      defaultPctThreshold
    ∧ hasNegativeClose
        (sortRowsByDate [(0, padRowA), (1, padRowNaN), (2, padRowC)]) = false
    ∧ claimLiteralJump defaultPctThreshold
        (sortRowsByDate [(0, padRowA), (1, padRowNaN), (2, padRowC)]) = false := by
  refine ⟨?_, ?_, ?_⟩
  · rw [show ("P" : Symbol) =
      ({ symbol := "P", rows := [(0, padRowA), (1, padRowNaN), (2, padRowC)] }
        : SymbolSeries).symbol from rfl]
    rw [mem_adjustment_scan defaultPctThreshold padDemoSeries
      (by simp [padDemoSeries]) (List.mem_cons_self _ _)]
    unfold adjustmentOne
    rw [Bool.or_eq_true]
    right
    rw [hasSuspiciousJump_iff]
    refine ⟨1, ((1, padRowNaN), some 100), ((2, padRowC), some 160),
      rfl, rfl, ?_, rfl⟩
    rw [pctChangeExceeds]
    norm_num [defaultPctThreshold, abs_div, padRowC]
  · norm_num [hasNegativeClose, sortRowsByDate, List.insertionSort,
      List.orderedInsert, padRowA, padRowNaN, padRowC]
  · norm_num [claimLiteralJump, sortRowsByDate, List.insertionSort,
      List.orderedInsert, adjacentPairs, pctChangeExceeds,
      padRowA, padRowNaN, padRowC]

/-- Rows for the C2 demonstration: close 100 then close 150 with a zero
dividend recorded on the jump date. -/
def jumpRowA : Row :=
  { open_ := some 100, high := some 100, low := some 100, close := some 100,
    volume := some 1, unadjusted_close := some 100, dividend := some 0 }

def jumpRowB : Row :=
  { open_ := some 150, high := some 150, low := some 150, close := some 150,
    volume := some 1, unadjusted_close := some 150, dividend := some 0 }

def jumpDemoSeries : List SymbolSeries :=
  [{ symbol := "J", rows := [(0, jumpRowA), (1, jumpRowB)] }]

/-- C2 (witness).  On a two-row series jumping 50 percent with a zero
dividend, the amended characterization applies and flags the symbol. -/
theorem adjustment_flag_characterization_witness :
    "J" ∈ _check_adjustment_consistency (.multiIndexed jumpDemoSeries)
      defaultPctThreshold := by
  apply (adjustment_flag_characterization defaultPctThreshold jumpDemoSeries
    (by simp [jumpDemoSeries])
    { symbol := "J", rows := [(0, jumpRowA), (1, jumpRowB)] }
    (List.mem_cons_self _ _)).mpr
  refine Or.inr ⟨0, ((0, jumpRowA), some 100), ((1, jumpRowB), some 150),
    rfl, rfl, ?_, rfl⟩
  rw [pctChangeExceeds]
  norm_num [defaultPctThreshold, abs_div]

/-- C10.  When every dividend cell of a symbol's series is missing (NaN)
rather than exactly zero, and no close is negative, the symbol is never
flagged, no matter how large its day-over-day changes are. -/
theorem adjustment_null_dividend_never_flags (threshold_pct : ℚ)
    (series : List SymbolSeries) (hnd : (series.map (·.symbol)).Nodup)
    (s : SymbolSeries) (hs : s ∈ series)
    (hneg : ∀ dr ∈ s.rows, ∀ c, dr.2.close = some c → 0 ≤ c)
    (hdiv : ∀ dr ∈ s.rows, dr.2.dividend = none) :
    s.symbol ∉ _check_adjustment_consistency (.multiIndexed series) threshold_pct := by
  rw [mem_adjustment_scan threshold_pct series hnd hs]
  unfold adjustmentOne
  rw [Bool.or_eq_true, hasNegativeClose_iff, hasSuspiciousJump_iff]
  rintro (⟨dr, hdr, c, hc, hlt⟩ | ⟨i, x, ⟨yr, yf⟩, h1, h2, hpct, hdivy⟩)
  · have hdr2 : dr ∈ s.rows := (sortRowsByDate_perm s.rows).subset hdr
    exact absurd (hneg dr hdr2 c hc) (not_le.mpr hlt)
  · have hy : (yr, yf) ∈ (sortRowsByDate s.rows).zip
        (ffillCloses (sortRowsByDate s.rows)) := List.getElem?_mem h2
    have hy1 : yr ∈ sortRowsByDate s.rows := (List.of_mem_zip hy).1
    have hy2 : yr ∈ s.rows := (sortRowsByDate_perm s.rows).subset hy1
    rw [hdiv yr hy2] at hdivy
    cases hdivy

/-- Rows for the C10 demonstration: a 50 percent jump whose dividend cell
is missing on every date. -/
def nullDivRowA : Row :=
  { open_ := some 100, high := some 100, low := some 100, close := some 100,
    volume := some 1, unadjusted_close := some 100, dividend := none }

def nullDivRowB : Row :=
  { open_ := some 150, high := some 150, low := some 150, close := some 150,
    volume := some 1, unadjusted_close := some 150, dividend := none }

def nullDivDemoSeries : List SymbolSeries :=
  [{ symbol := "K", rows := [(0, nullDivRowA), (1, nullDivRowB)] }]

/-- C10 (witness).  The same 50 percent jump as in the C2 witness does not
flag the symbol once the dividend cells are missing instead of zero. -/
theorem adjustment_null_dividend_never_flags_witness :
    "K" ∉ _check_adjustment_consistency (.multiIndexed nullDivDemoSeries)
      defaultPctThreshold := by
  apply adjustment_null_dividend_never_flags defaultPctThreshold nullDivDemoSeries
    (by simp [nullDivDemoSeries])
    { symbol := "K", rows := [(0, nullDivRowA), (1, nullDivRowB)] }
    (List.mem_cons_self _ _)
  · rintro dr hdr c hc
    rcases List.mem_cons.mp hdr with rfl | hdr2
    · injection hc with h
      rw [← h]
      norm_num [nullDivRowA]
    · rcases List.mem_cons.mp hdr2 with rfl | h3
      · injection hc with h
        rw [← h]
        norm_num [nullDivRowB]
      · cases h3
  · rintro dr hdr
    rcases List.mem_cons.mp hdr with rfl | hdr2
    · rfl
    · rcases List.mem_cons.mp hdr2 with rfl | h3
      · rfl
      · cases h3

/-! ## Claim C4: the delisting detector -/

lemma le_foldl_max (l : List ℕ) (a : ℕ) : a ≤ l.foldl max a := by
  induction l generalizing a with
  | nil => exact le_refl a
  | cons h t ih => exact le_trans (le_max_left a h) (ih (max a h))

lemma mem_le_foldl_max (l : List ℕ) (a x : ℕ) (hx : x ∈ l) :
    x ≤ l.foldl max a := by
  induction l generalizing a with
  | nil => cases hx
  | cons h t ih =>
      rcases List.mem_cons.mp hx with rfl | hmem
      · exact le_trans (le_max_right a x) (le_foldl_max t (max a x))
      · exact ih (max a h) hmem

lemma foldl_max_mem (l : List ℕ) (a : ℕ) :
    l.foldl max a = a ∨ l.foldl max a ∈ l := by
  induction l generalizing a with
  | nil => exact Or.inl rfl
  | cons h t ih =>
      rcases ih (max a h) with heq | hmem
      · rcases max_choice a h with hc | hc
        · exact Or.inl (by rw [List.foldl_cons, heq, hc])
        · refine Or.inr ?_
          rw [List.foldl_cons, heq, hc]
          exact List.mem_cons_self _ _
      · exact Or.inr (List.mem_cons_of_mem _ hmem)

lemma lastTickerDate_spec (s : SymbolSeries) (hne : s.rows ≠ []) :
    lastTickerDate s ∈ s.rows.map (·.1) ∧
      ∀ d ∈ s.rows.map (·.1), d ≤ lastTickerDate s := by
  unfold lastTickerDate natListMax
  have hmapne : s.rows.map (·.1) ≠ [] := by
    intro h
    exact hne (List.map_eq_nil_iff.mp h)
  constructor
  · rcases foldl_max_mem (s.rows.map (·.1)) 0 with h | h
    · obtain ⟨y, hy⟩ := List.exists_mem_of_ne_nil _ hmapne
      have hle := mem_le_foldl_max _ 0 y hy
      rw [h] at hle
      have hy0 : y = 0 := Nat.le_zero.mp hle
      rw [h, ← hy0]
      exact hy
    · exact h
  · intro d hd
    exact mem_le_foldl_max _ 0 d hd

/-- C4.  A symbol is recorded by the delisting detector, with value its
last (maximum) observed date, exactly when it has rows and the
calendar-day difference from its last date to the query end date strictly
exceeds the threshold; a difference of exactly the threshold is not
recorded, the threshold plus one is. -/
theorem delisting_characterization (query_end_date : ℕ) (threshold_days : ℤ)
    (series : List SymbolSeries) (hnd : (series.map (·.symbol)).Nodup)
    (s : SymbolSeries) (hs : s ∈ series) :
    (∀ d : ℕ,
      lookupD (check_delisting_status (.multiIndexed series) query_end_date
          threshold_days) s.symbol = some d
        ↔ (s.rows ≠ [] ∧ d = lastTickerDate s ∧
            (query_end_date : ℤ) - (lastTickerDate s : ℤ) > threshold_days))
    ∧ ((query_end_date : ℤ) - (lastTickerDate s : ℤ) = threshold_days →
        lookupD (check_delisting_status (.multiIndexed series) query_end_date
          threshold_days) s.symbol = none)
    ∧ (s.rows ≠ [] →
        (query_end_date : ℤ) - (lastTickerDate s : ℤ) = threshold_days + 1 →
        lookupD (check_delisting_status (.multiIndexed series) query_end_date
          threshold_days) s.symbol = some (lastTickerDate s))
    ∧ (s.rows ≠ [] →
        lastTickerDate s ∈ s.rows.map (·.1) ∧
          ∀ d ∈ s.rows.map (·.1), d ≤ lastTickerDate s) := by
  have hlook : lookupD (check_delisting_status (.multiIndexed series) query_end_date
      threshold_days) s.symbol = delistOne query_end_date threshold_days s :=
    lookupD_scan series (delistOne query_end_date threshold_days) hnd hs
  refine ⟨?_, ?_, ?_, fun hne => lastTickerDate_spec s hne⟩
  · intro d
    rw [hlook]
    cases hr : s.rows with
    | nil => simp [delistOne, hr]
    | cons hd tl =>
        simp only [delistOne, hr]
        split_ifs with hc
        · simp only [Option.some.injEq]
          constructor
          · intro h
            exact ⟨List.cons_ne_nil hd tl, h.symm, hc⟩
          · rintro ⟨-, h, -⟩
            exact h.symm
        · constructor
          · intro h
            cases h
          · rintro ⟨-, -, hgt⟩
            exact absurd hgt hc
  · intro heq
    rw [hlook]
    cases hr : s.rows with
    | nil => simp [delistOne, hr]
    | cons hd tl =>
        simp only [delistOne, hr]
        rw [if_neg]
        omega
  · intro hne hq
    rw [hlook]
    cases hr : s.rows with
    | nil => exact absurd hr hne
    | cons hd tl =>
        simp only [delistOne, hr]
        rw [if_pos]
        omega

/-- The C4 demonstration frame: one symbol whose series ends on day 40. -/
def delistDemoSeries : List SymbolSeries :=
  [{ symbol := "D", rows := [(0, gapDemoRow), (40, gapDemoRow)] }]

/-- C4 (witness).  With query end 100 and the default threshold 30, the
demonstration symbol (last date 40, difference 60) is recorded with its
last date. -/
theorem delisting_characterization_witness :
    lookupD (check_delisting_status (.multiIndexed delistDemoSeries) 100 30)
      "D" = some 40 := by
  apply ((delisting_characterization 100 30 delistDemoSeries
    (by simp [delistDemoSeries])
    { symbol := "D", rows := [(0, gapDemoRow), (40, gapDemoRow)] }
    (List.mem_cons_self _ _)).1 40).mpr
  refine ⟨by simp, by decide, by decide⟩

/-! ## Claim C3: resolver error handling -/

/-- C3.  Per-symbol invalid-symbol/invalid-index errors (a ValueError, or
a NorgateBridgeError whose lowercased message contains "not found") are
caught and the loop continues with the remaining symbols; such errors can
never be the resolver's result.  Any other NorgateBridgeError aborts the
loop immediately and propagates unchanged. -/
theorem resolver_error_propagation :
    (∀ (fetch : Symbol → Except BridgeExc ConstituentSeries) (target_date : ℕ)
        (sym : Symbol) (rest : List Symbol) (msg : String),
      fetch sym = .error (.valueError msg) →
      get_index_constituents_at_date fetch target_date (sym :: rest) =
        get_index_constituents_at_date fetch target_date rest)
    ∧ (∀ (fetch : Symbol → Except BridgeExc ConstituentSeries) (target_date : ℕ)
        (sym : Symbol) (rest : List Symbol) (e : BridgeExc),
      fetch sym = .error e → isInvalidReferenceError e = true →
      get_index_constituents_at_date fetch target_date (sym :: rest) =
        get_index_constituents_at_date fetch target_date rest)
    ∧ (∀ (fetch : Symbol → Except BridgeExc ConstituentSeries) (target_date : ℕ)
        (sym : Symbol) (rest : List Symbol) (msg : String),
      fetch sym = .error (.norgateBridgeError msg) → containsNotFound msg = false →
      get_index_constituents_at_date fetch target_date (sym :: rest) =
        .error (.norgateBridgeError msg))
    ∧ (∀ (fetch : Symbol → Except BridgeExc ConstituentSeries) (target_date : ℕ)
        (syms : List Symbol) (e : BridgeExc),
      isInvalidReferenceError e = true →
      get_index_constituents_at_date fetch target_date syms ≠ .error e) := by
  refine ⟨?_, ?_, ?_, ?_⟩
  · intro fetch target_date sym rest msg hfetch
    simp [get_index_constituents_at_date, hfetch, isInvalidReferenceError]
  · intro fetch target_date sym rest e hfetch hinv
    simp [get_index_constituents_at_date, hfetch, hinv]
  · intro fetch target_date sym rest msg hfetch hnf
    simp [get_index_constituents_at_date, hfetch, isInvalidReferenceError, hnf]
  · intro fetch target_date syms e hinv
    induction syms with
    | nil => intro h; cases h
    | cons sym rest ih =>
        intro h
        rw [get_index_constituents_at_date] at h
        split at h
        · split at h
          · exact ih h
          · split at h
            · cases hrec : get_index_constituents_at_date fetch target_date rest with
              | ok l => rw [hrec] at h; cases h
              | error e2 =>
                  rw [hrec] at h
                  simp only [Except.map] at h
                  injection h with h2
                  exact ih (by rw [hrec, h2])
            · exact ih h
        · split at h
          · exact ih h
          · next hinv2 =>
              injection h with h2
              rw [h2] at hinv2
              rw [hinv] at hinv2
              exact hinv2 rfl

/-- The C3 demonstration oracles: one lookup failing with a symbol-level
"not found" bridge error, one failing with a timeout-class bridge error. -/
def notFoundFetch : Symbol → Except BridgeExc ConstituentSeries :=
  fun _ => .error (.norgateBridgeError "Symbol BOGUS Not Found in database")

def timeoutFetch : Symbol → Except BridgeExc ConstituentSeries :=
  fun _ => .error (.norgateBridgeError "Bridge timeout after 300 seconds")

/-- C3 (witness).  A "not found" bridge error on the only candidate is
swallowed and resolution completes with an empty member list, while a
timeout-class bridge error propagates unchanged as the result. -/
theorem resolver_error_propagation_witness :
    get_index_constituents_at_date notFoundFetch 5 ["BOGUS"] = .ok []
      ∧ get_index_constituents_at_date timeoutFetch 5 ["AAPL", "MSFT"] =
          .error (.norgateBridgeError "Bridge timeout after 300 seconds") := by
  constructor
  · rw [resolver_error_propagation.2.1 notFoundFetch 5 "BOGUS" [] _ rfl (by decide)]
    rfl
  · exact resolver_error_propagation.2.2.1 timeoutFetch 5 "AAPL" ["MSFT"] _ rfl
      (by decide)

/-! ## Claim C7: resolver membership selection -/

lemma pairwise_fst_unique {ts : ConstituentSeries}
    (hsort : ts.Pairwise (fun p q => p.1 < q.1)) {e f : ℕ × ℤ}
    (he : e ∈ ts) (hf : f ∈ ts) (heq : e.1 = f.1) : e = f := by
  induction ts with
  | nil => cases he
  | cons h t ih =>
      rw [List.pairwise_cons] at hsort
      rcases List.mem_cons.mp he with rfl | he2
      · rcases List.mem_cons.mp hf with rfl | hf2
        · rfl
        · exfalso
          have := hsort.1 f hf2
          omega
      · rcases List.mem_cons.mp hf with rfl | hf2
        · exfalso
          have := hsort.1 e he2
          omega
        · exact ih hsort.2 he2 hf2

lemma getLast?_eq_of_max {l : ConstituentSeries}
    (hsort : l.Pairwise (fun p q => p.1 < q.1)) {e : ℕ × ℤ}
    (he : e ∈ l) (hmax : ∀ f ∈ l, f.1 ≤ e.1) : l.getLast? = some e := by
  induction l with
  | nil => cases he
  | cons h t ih =>
      rw [List.pairwise_cons] at hsort
      cases t with
      | nil =>
          rcases List.mem_cons.mp he with rfl | he2
          · rfl
          · cases he2
      | cons x t2 =>
          rw [List.getLast?_cons_cons]
          rcases List.mem_cons.mp he with rfl | he2
          · have h1 := hsort.1 x (List.mem_cons_self x t2)
            have h2 := hmax x (List.mem_cons_of_mem _ (List.mem_cons_self x t2))
            omega
          · exact ih hsort.2 he2
              (fun f hf => hmax f (List.mem_cons_of_mem _ hf))

/-- C7.  The membership decision of the resolver: an empty fetched series
skips the symbol (no error, resolution continues); a nonempty series reads
the flag of the exact entry for the target date when present, otherwise of
the most recent entry at or before the target date, otherwise of the first
entry; and the symbol is appended to the result exactly when the selected
flag is truthy (nonzero). -/
theorem resolver_membership_selection (target_date : ℕ) :
    (∀ (fetch : Symbol → Except BridgeExc ConstituentSeries)
        (sym : Symbol) (rest : List Symbol),
      fetch sym = .ok [] →
      get_index_constituents_at_date fetch target_date (sym :: rest) =
        get_index_constituents_at_date fetch target_date rest)
    ∧ (∀ (ts : ConstituentSeries), ts.Pairwise (fun p q => p.1 < q.1) →
        ∀ v : ℤ, (target_date, v) ∈ ts →
        selectMembership ts target_date = some (decide (v ≠ 0)))
    ∧ (∀ (ts : ConstituentSeries), ts.Pairwise (fun p q => p.1 < q.1) →
        ∀ e ∈ ts, e.1 ≤ target_date →
        (∀ f ∈ ts, f.1 ≤ target_date → f.1 ≤ e.1) →
        (∀ w : ℤ, (target_date, w) ∉ ts) →
        selectMembership ts target_date = some (decide (e.2 ≠ 0)))
    ∧ (∀ (first : ℕ × ℤ) (restTs : ConstituentSeries),
        (∀ f ∈ first :: restTs, target_date < f.1) →
        selectMembership (first :: restTs) target_date =
          some (decide (first.2 ≠ 0)))
    ∧ (∀ (fetch : Symbol → Except BridgeExc ConstituentSeries)
        (sym : Symbol) (rest : List Symbol) (ts : ConstituentSeries),
      fetch sym = .ok ts → selectMembership ts target_date = some true →
      get_index_constituents_at_date fetch target_date (sym :: rest) =
        (get_index_constituents_at_date fetch target_date rest).map
          (fun l => sym :: l))
    ∧ (∀ (fetch : Symbol → Except BridgeExc ConstituentSeries)
        (sym : Symbol) (rest : List Symbol) (ts : ConstituentSeries),
      fetch sym = .ok ts → selectMembership ts target_date = some false →
      get_index_constituents_at_date fetch target_date (sym :: rest) =
        get_index_constituents_at_date fetch target_date rest) := by
  refine ⟨?_, ?_, ?_, ?_, ?_, ?_⟩
  · intro fetch sym rest hfetch
    simp [get_index_constituents_at_date, hfetch, selectMembership]
  · intro ts hsort v hv
    cases ts with
    | nil => cases hv
    | cons first restTs =>
        cases hfind : (first :: restTs).find? (fun p => decide (p.1 = target_date)) with
        | none =>
            exfalso
            have hno := List.find?_eq_none.mp hfind (target_date, v) hv
            simp at hno
        | some e =>
            have hp := List.find?_some hfind
            have he1 : e.1 = target_date := of_decide_eq_true (by simpa using hp)
            have he2 : e ∈ first :: restTs := List.mem_of_find?_eq_some hfind
            have heq : e = (target_date, v) :=
              pairwise_fst_unique hsort he2 hv (by rw [he1])
            simp only [selectMembership, hfind, heq]
  · intro ts hsort e he hle hmax hnoexact
    cases ts with
    | nil => cases he
    | cons first restTs =>
        have hfind : (first :: restTs).find? (fun p => decide (p.1 = target_date))
            = none := by
          rw [List.find?_eq_none]
          intro x hx hdec
          have hx1 : x.1 = target_date := of_decide_eq_true hdec
          exact hnoexact x.2 (by
            have : x = (target_date, x.2) := by
              rw [← hx1]
            exact this ▸ hx)
        have hfilter : ((first :: restTs).filter
            (fun p => decide (p.1 ≤ target_date))).getLast? = some e := by
          apply getLast?_eq_of_max
          · exact List.Pairwise.sublist (List.filter_sublist _) hsort
          · exact List.mem_filter.mpr ⟨he, decide_eq_true hle⟩
          · intro f hf
            rcases List.mem_filter.mp hf with ⟨hf1, hf2⟩
            exact hmax f hf1 (of_decide_eq_true hf2)
        simp only [selectMembership, hfind, hfilter]
  · intro first restTs hafter
    have hfind : (first :: restTs).find? (fun p => decide (p.1 = target_date))
        = none := by
      rw [List.find?_eq_none]
      intro x hx hdec
      have hx1 : x.1 = target_date := of_decide_eq_true hdec
      have := hafter x hx
      omega
    have hfilter : (first :: restTs).filter
        (fun p => decide (p.1 ≤ target_date)) = [] := by
      rw [List.filter_eq_nil_iff]
      intro x hx
      have := hafter x hx
      simp only [decide_eq_true_eq]
      omega
    simp only [selectMembership, hfind, hfilter, List.getLast?_nil]
  · intro fetch sym rest ts hfetch hsel
    simp [get_index_constituents_at_date, hfetch, hsel]
  · intro fetch sym rest ts hfetch hsel
    simp [get_index_constituents_at_date, hfetch, hsel]

/-- The C7 demonstration oracle: one symbol with an exact truthy entry on
the target date, one whose series is empty. -/
def membershipFetch : Symbol → Except BridgeExc ConstituentSeries :=
  fun sym => if sym = "AAPL" then .ok [(3, 1), (5, 1), (9, 0)] else .ok []

/-- C7 (witness).  On the demonstration oracle with target date 5, the
exact entry (5, 1) is selected for AAPL and makes it a member, while the
empty series of the other symbol is skipped, so resolution returns
exactly AAPL. -/
theorem resolver_membership_selection_witness :
    selectMembership [(3, 1), (5, 1), (9, 0)] 5 = some true
      ∧ get_index_constituents_at_date membershipFetch 5 ["AAPL", "EMPTY"] =
          .ok ["AAPL"] := by
  have hsel : selectMembership [(3, 1), (5, 1), (9, 0)] 5 = some true := by
    have := (resolver_membership_selection 5).2.1 [(3, 1), (5, 1), (9, 0)]
      (by simp [List.pairwise_cons]) 1 (by simp)
    simpa using this
  refine ⟨hsel, ?_⟩
  rw [(resolver_membership_selection 5).2.2.2.2.1 membershipFetch "AAPL" ["EMPTY"]
    [(3, 1), (5, 1), (9, 0)] rfl hsel]
  rw [(resolver_membership_selection 5).1 membershipFetch "EMPTY" [] rfl]
  rfl

/-! ## Claims C9, C5, C8: the report assembler -/

/-- The symbols present in the input dataset. -/
def frameSymbols : PriceFrame → List Symbol
  | .flat => []
  | .multiIndexed series => series.map (·.symbol)

lemma validate_eq_assemble (frame : PriceFrame) (cd : Bool) (r : ValidationReport)
    (h : validate_prices frame cd = some r) :
    ∃ t rg dl, r = assembleReport t rg (_check_missing_values frame)
      (_check_date_gaps frame defaultGapThreshold)
      (_check_adjustment_consistency frame defaultPctThreshold) dl ∧
      (dl = [] ∨ ∃ q, dl = check_delisting_status frame q defaultDelistThreshold) := by
  cases frame with
  | flat =>
      refine ⟨0, (date20200101, date20200101), _, (Option.some.inj h).symm, ?_⟩
      cases cd with
      | false => exact Or.inl rfl
      | true => exact Or.inr ⟨date20200101, rfl⟩
  | multiIndexed series =>
      cases hd : allDates series with
      | nil =>
          simp only [validate_prices, hd] at h
          exact Option.noConfusion h
      | cons d ds =>
          simp only [validate_prices, hd] at h
          refine ⟨_, _, _, (Option.some.inj h).symm, ?_⟩
          cases cd with
          | false => exact Or.inl rfl
          | true => exact Or.inr ⟨ds.foldl Nat.max d, rfl⟩

/-- C9.  An input without the compound (date, symbol) index structure
does not raise: validate_prices returns a report with zero tickers, the
fixed 2020-01-01 placeholder date range, all four issue containers empty
and a valid verdict, and each of the four scanners returns an empty
result on such input, for every threshold. -/
theorem degenerate_input_behavior :
    (∀ cd : Bool, ∃ r : ValidationReport,
      validate_prices .flat cd = some r ∧ r.total_tickers = 0 ∧
      r.date_range = (date20200101, date20200101) ∧
      r.missing_data_counts = [] ∧ r.date_gaps = [] ∧
      r.adjustment_issues = [] ∧ r.delisting_events = [] ∧ r.is_valid = true)
    ∧ _check_missing_values .flat = []
    ∧ (∀ threshold_days : ℤ, _check_date_gaps .flat threshold_days = [])
    ∧ (∀ threshold_pct : ℚ, _check_adjustment_consistency .flat threshold_pct = [])
    ∧ (∀ (query_end_date : ℕ) (threshold_days : ℤ),
        check_delisting_status .flat query_end_date threshold_days = []) := by
  refine ⟨?_, rfl, fun _ => rfl, fun _ => rfl, fun _ _ => rfl⟩
  intro cd
  cases cd with
  | false => exact ⟨_, rfl, rfl, rfl, rfl, rfl, rfl, rfl, rfl⟩
  | true => exact ⟨_, rfl, rfl, rfl, rfl, rfl, rfl, rfl, rfl⟩

/-- C5.  A returned report is valid exactly when its missing-data, gap
and adjustment containers are all empty, and delisting detection (on or
off) never changes the verdict. -/
theorem is_valid_characterization :
    (∀ (frame : PriceFrame) (cd : Bool) (r : ValidationReport),
      validate_prices frame cd = some r →
      (r.is_valid = true ↔ (r.missing_data_counts = [] ∧ r.date_gaps = [] ∧
        r.adjustment_issues = [])))
    ∧ (∀ (frame : PriceFrame) (r₁ r₂ : ValidationReport),
      validate_prices frame true = some r₁ →
      validate_prices frame false = some r₂ →
      r₁.is_valid = r₂.is_valid) := by
  constructor
  · intro frame cd r h
    obtain ⟨t, rg, dl, rfl, -⟩ := validate_eq_assemble frame cd r h
    simp only [assembleReport, Bool.and_eq_true, List.isEmpty_iff]
    tauto
  · intro frame r₁ r₂ h₁ h₂
    obtain ⟨t₁, rg₁, dl₁, rfl, -⟩ := validate_eq_assemble frame true r₁ h₁
    obtain ⟨t₂, rg₂, dl₂, rfl, -⟩ := validate_eq_assemble frame false r₂ h₂
    rfl

/-- The row with every cell missing, and a two-date demonstration frame
whose validation has both missing values and a date gap. -/
def noneRow : Row :=
  { open_ := none, high := none, low := none, close := none,
    volume := none, unadjusted_close := none, dividend := none }

def noneDemoSeries : List SymbolSeries :=
  [{ symbol := "A", rows := [(0, noneRow), (14, noneRow)] }]

/-- The report validate_prices produces on the demonstration frame. -/
def noneDemoReport : ValidationReport :=
  { total_tickers := 1
    date_range := (0, 14)
    missing_data_counts := [("A", 8)]
    date_gaps := [("A", [(0, 14)])]
    adjustment_issues := []
    delisting_events := []
    summary_message :=
      "Validation found issues: 1 ticker(s) with 8 missing value(s); 1 ticker(s) with 1 date gap(s)"
    is_valid := false }

/-- C5 (witness).  On the demonstration frame the report is invalid, and
the characterization ties that to its non-empty containers. -/
theorem is_valid_characterization_witness :
    noneDemoReport.is_valid = true ↔
      (noneDemoReport.missing_data_counts = [] ∧ noneDemoReport.date_gaps = [] ∧
        noneDemoReport.adjustment_issues = []) :=
  is_valid_characterization.1 (.multiIndexed noneDemoSeries) true noneDemoReport
    (by decide)

/-- C8.  Every symbol key in any of the four issue containers of a
returned report is a symbol present in the input dataset. -/
theorem report_symbols_in_dataset (frame : PriceFrame) (cd : Bool)
    (r : ValidationReport) (h : validate_prices frame cd = some r) (sym : Symbol) :
    (sym ∈ r.missing_data_counts.map (·.1) ∨ sym ∈ r.date_gaps.map (·.1) ∨
      sym ∈ r.adjustment_issues ∨ sym ∈ r.delisting_events.map (·.1)) →
    sym ∈ frameSymbols frame := by
  obtain ⟨t, rg, dl, rfl, hdl⟩ := validate_eq_assemble frame cd r h
  cases frame with
  | flat =>
      rintro (h1 | h2 | h3 | h4)
      · cases h1
      · cases h2
      · cases h3
      · rcases hdl with rfl | ⟨q, rfl⟩
        · cases h4
        · cases h4
  | multiIndexed series =>
      rintro (h1 | h2 | h3 | h4)
      · exact mem_keys_scan series missingOne sym h1
      · exact mem_keys_scan series (gapsOne defaultGapThreshold) sym h2
      · exact mem_adjustment_subset defaultPctThreshold series sym h3
      · rcases hdl with rfl | ⟨q, rfl⟩
        · cases h4
        · exact mem_keys_scan series (delistOne q defaultDelistThreshold) sym h4

/-- C8 (witness).  The demonstration report's keys all come from the
demonstration frame. -/
theorem report_symbols_in_dataset_witness :
    "A" ∈ frameSymbols (.multiIndexed noneDemoSeries) :=
  report_symbols_in_dataset (.multiIndexed noneDemoSeries) true noneDemoReport
    (by decide) "A" (Or.inl (by decide))

/-! ## Claim C6: the summary-length bound -/

lemma truncateSummary_length_le (msg : String) :
    (truncateSummary msg).length ≤ 200 := by
  unfold truncateSummary
  split_ifs with h
  · have h1 : (String.mk (msg.data.take 197) ++ "...").length
        = (msg.data.take 197).length + 3 := by
      rw [String.length_append]
      rfl
    rw [h1, List.length_take]
    have h2 : msg.data.length = msg.length := rfl
    omega
  · omega

lemma summaryClauses_nil_iff (missing : List (Symbol × ℕ))
    (gaps : List (Symbol × List (ℕ × ℕ))) (adjustment : List Symbol)
    (delist : List (Symbol × ℕ)) :
    summaryClauses missing gaps adjustment delist = [] ↔
      (missing = [] ∧ gaps = [] ∧ adjustment = [] ∧ delist = []) := by
  unfold summaryClauses
  split_ifs <;> simp_all [List.isEmpty_iff]

lemma buildSummary_length (total_tickers : ℕ) (missing : List (Symbol × ℕ))
    (gaps : List (Symbol × List (ℕ × ℕ))) (adjustment : List Symbol)
    (delist : List (Symbol × ℕ))
    (h : ¬(missing = [] ∧ gaps = [] ∧ adjustment = [] ∧ delist = []) ∨
      (Nat.repr total_tickers).length ≤ 151) :
    (buildSummary total_tickers missing gaps adjustment delist).length ≤ 200 := by
  unfold buildSummary
  split_ifs with hiss
  · rcases h with hne | hrep
    · exact absurd ((summaryClauses_nil_iff missing gaps adjustment delist).mp
        (List.isEmpty_iff.mp hiss)) hne
    · rw [String.length_append, String.length_append]
      have h21 : ("Validation complete: " : String).length = 21 := rfl
      have h28 : (" tickers, no issues detected" : String).length = 28 := rfl
      omega
  · exact truncateSummary_length_le _

/-- C6 (amended).  The summary message of a returned report is at most
200 characters whenever at least one issue category is non-empty (the
truncation branch guarantees the bound), and in the no-issue case
whenever the decimal representation of the ticker count has at most 151
digits (equivalently, fewer than 10 to the power 151 tickers); the
no-issue sentence embeds the ticker count untruncated, so the bound can
fail only there. -/
theorem summary_length_bound :
    (∀ (frame : PriceFrame) (cd : Bool) (r : ValidationReport),
      validate_prices frame cd = some r →
      ¬(r.missing_data_counts = [] ∧ r.date_gaps = [] ∧
          r.adjustment_issues = [] ∧ r.delisting_events = []) →
      r.summary_message.length ≤ 200)
    ∧ (∀ (frame : PriceFrame) (cd : Bool) (r : ValidationReport),
      validate_prices frame cd = some r →
      (Nat.repr r.total_tickers).length ≤ 151 →
      r.summary_message.length ≤ 200)
    ∧ (∀ (frame : PriceFrame) (cd : Bool) (r : ValidationReport),
      validate_prices frame cd = some r →
      ¬(r.missing_data_counts = [] ∧ r.date_gaps = [] ∧
          r.adjustment_issues = [] ∧ r.delisting_events = []) →
      r.summary_message = truncateSummary ("Validation found issues: " ++
        String.intercalate "; " (summaryClauses r.missing_data_counts r.date_gaps
          r.adjustment_issues r.delisting_events))) := by
  refine ⟨?_, ?_, ?_⟩
  · intro frame cd r h hne
    obtain ⟨t, rg, dl, rfl, -⟩ := validate_eq_assemble frame cd r h
    exact buildSummary_length _ _ _ _ _ (Or.inl hne)
  · intro frame cd r h hrep
    obtain ⟨t, rg, dl, rfl, -⟩ := validate_eq_assemble frame cd r h
    exact buildSummary_length _ _ _ _ _ (Or.inr hrep)
  · intro frame cd r h hne
    obtain ⟨t, rg, dl, rfl, -⟩ := validate_eq_assemble frame cd r h
    simp only [assembleReport] at hne ⊢
    rw [buildSummary, if_neg (fun hemp =>
      hne ((summaryClauses_nil_iff _ _ _ _).mp (List.isEmpty_iff.mp hemp)))]

/-- C6 (witness).  The demonstration report has issues and its summary
respects the bound. -/
theorem summary_length_bound_witness :
    noneDemoReport.summary_message.length ≤ 200 :=
  summary_length_bound.1 (.multiIndexed noneDemoSeries) true noneDemoReport
    (by decide) (by simp [noneDemoReport])

/-- The symbol of the i-th uniform ticker: i letters a, so that distinct
indices give distinct symbols. -/
def mkSym (i : ℕ) : Symbol := String.mk (List.replicate i 'a')

/-- One clean single-row series per symbol, all observed on day 5. -/
def mkUniformSeries (sym : Symbol) : SymbolSeries :=
  { symbol := sym, rows := [(5, gapDemoRow)] }

/-- A frame of n distinct issue-free tickers. -/
def uniformFrame (n : ℕ) : List SymbolSeries :=
  (List.range n).map (fun i => mkUniformSeries (mkSym i))

lemma mkSym_injective : Function.Injective mkSym := by
  intro i j h
  have hlen : (mkSym i).data.length = (mkSym j).data.length := by rw [h]
  simpa [mkSym, List.length_replicate] using hlen

lemma adjustmentOne_uniform (sym : Symbol) :
    adjustmentOne defaultPctThreshold (mkUniformSeries sym) = false := by
  norm_num [adjustmentOne, mkUniformSeries, hasNegativeClose, hasSuspiciousJump,
    sortRowsByDate, gapDemoRow, adjacentPairs, List.insertionSort]

lemma allDates_uniform_aux (l : List ℕ) :
    allDates (l.map (fun i => mkUniformSeries (mkSym i))) =
      List.replicate l.length 5 := by
  induction l with
  | nil => rfl
  | cons x t ih =>
      simp only [List.map_cons, allDates, ih, List.length_cons]
      rfl

lemma foldl_min_replicate (k : ℕ) :
    (List.replicate k 5).foldl Nat.min 5 = 5 := by
  induction k with
  | zero => rfl
  | succ k ih => simpa [List.replicate_succ] using ih

lemma foldl_max_replicate (k : ℕ) :
    (List.replicate k 5).foldl Nat.max 5 = 5 := by
  induction k with
  | zero => rfl
  | succ k ih => simpa [List.replicate_succ] using ih

lemma missing_uniform (n : ℕ) :
    _check_missing_values (.multiIndexed (uniformFrame n)) = [] := by
  rw [_check_missing_values, uniformFrame, List.filterMap_map]
  apply List.filterMap_eq_nil_iff.mpr
  intro i hi
  rfl

lemma gaps_uniform (n : ℕ) :
    _check_date_gaps (.multiIndexed (uniformFrame n)) defaultGapThreshold = [] := by
  rw [_check_date_gaps, uniformFrame, List.filterMap_map]
  apply List.filterMap_eq_nil_iff.mpr
  intro i hi
  rfl

lemma adjustment_uniform (n : ℕ) :
    _check_adjustment_consistency (.multiIndexed (uniformFrame n))
      defaultPctThreshold = [] := by
  rw [_check_adjustment_consistency, uniformFrame, List.filterMap_map]
  apply List.filterMap_eq_nil_iff.mpr
  intro i hi
  simp [Function.comp_def, adjustmentOne_uniform]

lemma delisting_uniform (n : ℕ) :
    check_delisting_status (.multiIndexed (uniformFrame n)) 5
      defaultDelistThreshold = [] := by
  rw [check_delisting_status, uniformFrame, List.filterMap_map]
  apply List.filterMap_eq_nil_iff.mpr
  intro i hi
  rfl

lemma total_uniform (n : ℕ) :
    ((uniformFrame n).map (·.symbol)).dedup.length = n := by
  have hmap : (uniformFrame n).map (·.symbol) = (List.range n).map mkSym := by
    rw [uniformFrame, List.map_map]
    rfl
  rw [hmap]
  rw [List.dedup_eq_self.mpr (List.Nodup.map mkSym_injective (List.nodup_range n))]
  rw [List.length_map, List.length_range]

lemma validate_uniform (n : ℕ) :
    validate_prices (.multiIndexed (uniformFrame (n + 1))) true =
      some (assembleReport (n + 1) (5, 5) [] [] [] []) := by
  have hdates : allDates (uniformFrame (n + 1)) = 5 :: List.replicate n 5 := by
    rw [uniformFrame, allDates_uniform_aux, List.length_range, List.replicate_succ]
  simp only [validate_prices, hdates]
  rw [foldl_min_replicate, foldl_max_replicate, total_uniform,
    missing_uniform, gaps_uniform, adjustment_uniform, if_pos trivial, delisting_uniform]

set_option maxRecDepth 1000000 in
/-- C6 (counterexample).  On an issue-free frame of 10 to the power 151
tickers, validate_prices succeeds but the no-issue summary sentence has
201 characters: the composed text is not truncated in the no-issue
branch, refuting the claimed unconditional 200-character cap. -/
theorem summary_length_counterexample :
    validate_prices (.multiIndexed (uniformFrame (10 ^ 151))) true =
      some (assembleReport (10 ^ 151) (5, 5) [] [] [] [])
    ∧ (assembleReport (10 ^ 151) (5, 5) [] [] [] []).summary_message.length
        = 201 := by
  constructor
  · have hpos : 0 < (10 : ℕ) ^ 151 := pow_pos (by norm_num) 151
    have hsucc : (10 : ℕ) ^ 151 - 1 + 1 = 10 ^ 151 := by omega
    rw [← hsucc]
    exact validate_uniform (10 ^ 151 - 1)
  · show (buildSummary (10 ^ 151) [] [] [] []).length = 201
    rw [buildSummary, if_pos (show (summaryClauses ([] : List (Symbol × ℕ)) [] [] []).isEmpty = true from rfl)]
    rw [String.length_append, String.length_append]
    have h21 : ("Validation complete: " : String).length = 21 := rfl
    have h28 : (" tickers, no issues detected" : String).length = 28 := rfl
    have hrep : (Nat.repr (10 ^ 151)).length = 152 := by decide
    omega

end MomoValidation
